import Mathlib

/-!
Shallow embedding of the "astats" energy-based activity-range detector of
`src/server.js` (gochventas/video-svc), the `app.post("/astats")` handler.
JavaScript numbers are modelled as rationals; the regex parsing of the
external tool's text output is abstracted: the handler model receives the
parsed sample list (resp. silence-event list) as part of its environment,
together with the success/failure of the tool invocations.  All list-level
and arithmetic logic (threshold selection, range building, silence
inversion, padding, sorting, merging, and the orchestrator's branching) is
translated statement by statement from the source.
-/

/-- A parsed loudness sample: an element of the JS array `pts`, an object
`{ t, rms }` (server.js line 422). -/
structure Pt where
  t : ℚ
  rms : ℚ
deriving DecidableEq, Repr

/-- A time range `{ start, end }` in seconds.  The JS field `end` is a Lean
keyword, so it is called `stop` here. -/
structure Range where
  start : ℚ
  stop : ℚ
deriving DecidableEq, Repr

/-- Kind of a silencedetect event: `silence_start` or `silence_end`
(server.js line 433). -/
inductive SilKind where
  | start
  | stop
deriving DecidableEq, Repr

/-- A parsed silencedetect event `{ k, v }` (server.js line 435). -/
structure SilEvent where
  k : SilKind
  v : ℚ
deriving DecidableEq, Repr

/-- JavaScript `Number(x) || d` for an already-numeric `x`: `0` is falsy, so
a zero value is replaced by the default `d` (server.js lines 343, 484, 485).
`NaN` (also falsy) has no rational counterpart and is out of scope. -/
def numOr (x d : ℚ) : ℚ := if x = 0 then d else x

/-- Line 478, `[...pts].map(p => p.rms).sort((a, b) => a - b)`: ascending
stable sort of the RMS levels.  JS `Array.prototype.sort` is stable and this
comparator orders ascending, which `List.insertionSort` with `≤` reproduces
exactly (stable sorts by the same key agree). -/
def sortedRms (pts : List Pt) : List ℚ :=
  List.insertionSort (fun a b => a ≤ b) (pts.map Pt.rms)

/-- Line 479, `Math.min(sorted.length - 1, Math.max(0,
Math.floor(sorted.length * percentile)))`, as an integer (it is cast to a
list index by `Int.toNat`, which is lossless here because the clamped value
is nonnegative whenever the list is nonempty). -/
def thIdx (n : ℕ) (percentile : ℚ) : ℤ :=
  min ((n : ℤ) - 1) (max 0 ⌊(n : ℚ) * percentile⌋)

/-- Lines 478-481: percentile threshold over the sorted RMS levels, clamped
from below by `base_db`: `TH = Math.max(Number(pctl), Number(base_db))`. -/
def threshold (pts : List Pt) (percentile base_db : ℚ) : ℚ :=
  max ((sortedRms pts).getD (thIdx (sortedRms pts).length percentile).toNat 0) base_db

/-- The primary scan loop of lines 488-495 plus the trailing push of line
496: `cur` is the currently open interval, `acc` the raw list built so far.
A sample with `p.t > MAX_T` breaks out of the loop; afterwards a still-open
`cur` is pushed. -/
def buildRawGo (maxT TH : ℚ) : List Pt → Option Range → List Range → List Range
  | [], cur, acc => acc ++ cur.toList
  | p :: rest, cur, acc =>
    if maxT < p.t then acc ++ cur.toList
    else if TH ≤ p.rms then
      match cur with
      | none => buildRawGo maxT TH rest (some ⟨p.t, p.t⟩) acc
      | some c => buildRawGo maxT TH rest (some ⟨c.start, p.t⟩) acc
    else
      match cur with
      | none => buildRawGo maxT TH rest none acc
      | some c => buildRawGo maxT TH rest none (acc ++ [c])

/-- Lines 486-496: raw active intervals from the samples and the threshold. -/
def buildRaw (maxT TH : ℚ) (pts : List Pt) : List Range :=
  buildRawGo maxT TH pts none []

/-- Line 499, `{ start: Math.max(0, r.start - PAD), end: r.end + PAD }`. -/
def padRange (PAD : ℚ) (r : Range) : Range :=
  ⟨max 0 (r.start - PAD), r.stop + PAD⟩

/-- Line 500, `.sort((a, b) => a.start - b.start)`: stable ascending sort by
`start` (see `sortedRms` for why `List.insertionSort` is a faithful model). -/
def sortRanges (rs : List Range) : List Range :=
  List.insertionSort (fun a b => a.start ≤ b.start) rs

/-- The merge loop of lines 502-507 with the accumulator kept reversed, so
the head of `acc` is the JS `merged[merged.length - 1]`:
`if (!last || r.start - last.end > MERGE) merged.push({...r}); else
last.end = Math.max(last.end, r.end)`. -/
def mergeGoRev (MERGE : ℚ) : List Range → List Range → List Range
  | acc, [] => acc
  | acc, r :: rest =>
    match acc with
    | [] => mergeGoRev MERGE [r] rest
    | last :: tl =>
      if MERGE < r.start - last.stop then mergeGoRev MERGE (r :: last :: tl) rest
      else mergeGoRev MERGE (⟨last.start, max last.stop r.stop⟩ :: tl) rest

/-- Lines 502-507: greedy linear merge of the sorted padded ranges. -/
def mergeRanges (MERGE : ℚ) (rs : List Range) : List Range :=
  (mergeGoRev MERGE [] rs).reverse

/-- Lines 498-507 as one component (the spec's RangeMerger): pad every raw
interval, sort by `start`, then greedily merge. -/
def rangeMerger (PAD MERGE : ℚ) (raw : List Range) : List Range :=
  mergeRanges MERGE (sortRanges (raw.map (padRange PAD)))

/-- The silencedetect inversion loop, lines 437-447: `lastv` is the JS
`last` cursor.  On a `start` event push `[last, min(v, MAX_T))` when
nonempty; on an `end` event move the cursor to `min(v, MAX_T)`; after the
last event push the tail `[last, MAX_T)` when `last < MAX_T`. -/
def invertGo (maxT : ℚ) : List SilEvent → ℚ → List Range → List Range
  | [], lastv, acc => if lastv < maxT then acc ++ [⟨lastv, maxT⟩] else acc
  | e :: rest, lastv, acc =>
    match e.k with
    | SilKind.start =>
      if lastv < min e.v maxT then invertGo maxT rest lastv (acc ++ [⟨lastv, min e.v maxT⟩])
      else invertGo maxT rest lastv acc
    | SilKind.stop => invertGo maxT rest (min e.v maxT) acc

/-- Lines 432-447: active ("not silent") ranges from the silencedetect
events, starting with cursor `0` and empty output. -/
def invertSilence (maxT : ℚ) (evs : List SilEvent) : List Range :=
  invertGo maxT evs 0 []

/-- The `method` diagnostic field of the response (lines 357-358, 372, 387). -/
inductive Method where
  | astats_ametadata
  | silencedetect_fallback
  | no_audio
deriving DecidableEq, Repr

/-- The request-body configuration fields of `/astats` (lines 328-335). -/
structure AstatsConfig where
  max_seconds : ℚ
  percentile : ℚ
  base_db : ℚ
  pad : ℚ
  merge_gap : ℚ
deriving DecidableEq, Repr

/-- Environment of one `/astats` run: the outcome of the external tool
invocations and of the regex parsing, which the handler consumes.
`primaryOk` is true when one of the two primary ffmpeg invocations (lines
375-384) succeeded; `primaryPts` is the parsed `pts` array (lines 402-429);
`silenceEvents` is the parsed silencedetect event list (lines 432-435). -/
structure AstatsEnv where
  hasAudio : Bool
  primaryOk : Bool
  primaryPts : List Pt
  silenceEvents : List SilEvent
deriving DecidableEq, Repr

/-- The fields of the JSON response relevant to the analysis (lines 350-360,
450-459, 464-474, 510-519). -/
structure AstatsResult where
  threshold : ℚ
  ranges : List Range
  points : ℕ
  method : Method
  note : Option String
deriving DecidableEq, Repr

/-- The `/astats` handler body (lines 343-519) after the download step:
no-audio short-circuit, primary parse, the zero-samples early return of
lines 462-475, the silencedetect fallback return of lines 449-459, and the
full primary pipeline of lines 477-519.  `maxSec` is line 343,
`Math.max(1, Number(max_seconds) || 1200)`. -/
def astatsHandler (cfg : AstatsConfig) (env : AstatsEnv) : AstatsResult :=
  let maxSec := max 1 (numOr cfg.max_seconds 1200)
  if env.hasAudio = false then
    ⟨cfg.base_db, [], 0, Method.no_audio, some "No se encontró pista de audio en el video."⟩
  else if env.primaryOk = true then
    if env.primaryPts = [] then
      ⟨cfg.base_db, [], 0, Method.astats_ametadata,
        some "No se detectaron líneas de RMS en el log."⟩
    else
      let TH := threshold env.primaryPts cfg.percentile cfg.base_db
      ⟨TH,
        rangeMerger (numOr cfg.pad (6/5)) (numOr cfg.merge_gap 1)
          (buildRaw maxSec TH env.primaryPts),
        env.primaryPts.length, Method.astats_ametadata, none⟩
  else
    ⟨cfg.base_db, invertSilence maxSec env.silenceEvents, 0,
      Method.silencedetect_fallback, none⟩

/-- The sample sequence of the spec's Scenario A (claim C3). -/
def ptsA : List Pt := [⟨0, -40⟩, ⟨1, -10⟩, ⟨2, -9⟩, ⟨3, -41⟩, ⟨4, -8⟩]

/-- A concrete environment in which the primary tool invocation succeeds but
the regex parse extracts zero samples. -/
def envZeroParse : AstatsEnv :=
  ⟨true, true, [], [⟨SilKind.start, 2⟩, ⟨SilKind.stop, 5⟩]⟩

/-- A concrete environment in which both primary tool invocations fail, so
the silencedetect fallback runs, yielding events Start(2), End(5). -/
def envFallback : AstatsEnv :=
  ⟨true, false, [], [⟨SilKind.start, 2⟩, ⟨SilKind.stop, 5⟩]⟩

/-- A concrete request configuration with integer-valued fields:
max_seconds 10, percentile 1, base_db -35, pad 2, merge_gap 1. -/
def cfg10 : AstatsConfig := ⟨10, 1, -35, 2, 1⟩

/-- The predicate relating consecutive ranges in the merger's output:
starts are ordered and the gap strictly exceeds the merge gap `g`. -/
def mergedRel (g : ℚ) (a b : Range) : Prop :=
  a.start ≤ b.start ∧ g < b.start - a.stop

/-- Claim C9: fallback inversion of the silence events Start(2), End(5)
with maxSeconds = 10 yields exactly the active intervals (0,2) and (5,10),
before any padding. -/
theorem C9_fallback_inversion_concrete :
    invertSilence 10 [⟨SilKind.start, 2⟩, ⟨SilKind.stop, 5⟩] = [⟨0, 2⟩, ⟨5, 10⟩] := by
  norm_num [invertSilence, invertGo, min_def]

/-- Claim C3, counterexample: on Scenario A the sorted levels are
[-41,-40,-10,-9,-8] and the index is min(4, max(0, floor(5 * 0.6))) = 3, so
the threshold is max(-9, -35) = -9; hence the sample (1,-10) is not active,
the raw intervals are not [(1,2),(4,4)], and the merged output is not
[(0,5)], contrary to the claim. -/
theorem C3_counterexample :
    buildRaw 1200 (threshold ptsA (3/5) (-35)) ptsA ≠ [⟨1, 2⟩, ⟨4, 4⟩] ∧
    rangeMerger 1 1 (buildRaw 1200 (threshold ptsA (3/5) (-35)) ptsA) ≠ [⟨0, 5⟩] := by
  have hTH : threshold ptsA (3/5) (-35) = -9 := by
    norm_num [threshold, ptsA, sortedRms, List.insertionSort, List.orderedInsert, thIdx,
      max_def, min_def]
    decide
  have hraw : buildRaw 1200 (-9) ptsA = [⟨2, 2⟩, ⟨4, 4⟩] := by
    norm_num [buildRaw, buildRawGo, ptsA]
  have hmerged : rangeMerger 1 1 [(⟨2, 2⟩ : Range), ⟨4, 4⟩] = [⟨1, 5⟩] := by
    norm_num [rangeMerger, mergeRanges, mergeGoRev, sortRanges, padRange,
      List.insertionSort, List.orderedInsert, max_def, min_def]
  rw [hTH, hraw, hmerged]
  exact ⟨by decide, by decide⟩

/-- Claim C3, amended: with the threshold the code actually selects (-9),
Scenario A gives raw intervals [(2,2),(4,4)], padded-and-sorted intervals
[(1,3),(3,5)], and merged output [(1,5)]. -/
theorem C3_scenarioA_actual :
    threshold ptsA (3/5) (-35) = -9 ∧
    buildRaw 1200 (threshold ptsA (3/5) (-35)) ptsA = [⟨2, 2⟩, ⟨4, 4⟩] ∧
    sortRanges ((buildRaw 1200 (threshold ptsA (3/5) (-35)) ptsA).map (padRange 1)) =
      [⟨1, 3⟩, ⟨3, 5⟩] ∧
    rangeMerger 1 1 (buildRaw 1200 (threshold ptsA (3/5) (-35)) ptsA) = [⟨1, 5⟩] := by
  have hTH : threshold ptsA (3/5) (-35) = -9 := by
    norm_num [threshold, ptsA, sortedRms, List.insertionSort, List.orderedInsert, thIdx,
      max_def, min_def]
    decide
  have hraw : buildRaw 1200 (-9) ptsA = [⟨2, 2⟩, ⟨4, 4⟩] := by
    norm_num [buildRaw, buildRawGo, ptsA]
  refine ⟨hTH, by rw [hTH, hraw], ?_, ?_⟩
  · rw [hTH, hraw]
    norm_num [sortRanges, padRange, List.insertionSort, List.orderedInsert, max_def]
  · rw [hTH, hraw]
    norm_num [rangeMerger, mergeRanges, mergeGoRev, sortRanges, padRange,
      List.insertionSort, List.orderedInsert, max_def, min_def]

/-- Claim C1, counterexample: with the primary invocation succeeding but
zero samples parsed, the handler does not fall back to silence detection:
it returns an empty-ranges result still on the primary method. -/
theorem C1_counterexample :
    envZeroParse.primaryOk = true ∧ envZeroParse.primaryPts = [] ∧
    (astatsHandler cfg10 envZeroParse).method ≠ Method.silencedetect_fallback ∧
    (astatsHandler cfg10 envZeroParse).method = Method.astats_ametadata ∧
    (astatsHandler cfg10 envZeroParse).ranges = [] := by
  refine ⟨rfl, rfl, ?_, ?_, ?_⟩ <;> simp [astatsHandler, cfg10, envZeroParse]

/-- Claim C1, amended: when the audio probe and the primary invocation
succeed but parsing yields zero samples, the handler returns an
empty-ranges result with method still astats_ametadata, threshold base_db,
and the distinct diagnostic note of line 471; it does not fall back. -/
theorem C1_zero_samples_stays_primary (cfg : AstatsConfig) (env : AstatsEnv)
    (ha : env.hasAudio = true) (hok : env.primaryOk = true)
    (hpts : env.primaryPts = []) :
    astatsHandler cfg env =
      ⟨cfg.base_db, [], 0, Method.astats_ametadata,
        some "No se detectaron líneas de RMS en el log."⟩ := by
  simp [astatsHandler, ha, hok, hpts]

/-- Witness for C1_zero_samples_stays_primary at a concrete input. -/
theorem C1_zero_samples_stays_primary_witness :
    envZeroParse.hasAudio = true ∧ envZeroParse.primaryOk = true ∧
    envZeroParse.primaryPts = [] ∧
    astatsHandler cfg10 envZeroParse =
      ⟨cfg10.base_db, [], 0, Method.astats_ametadata,
        some "No se detectaron líneas de RMS en el log."⟩ :=
  ⟨rfl, rfl, rfl, C1_zero_samples_stays_primary cfg10 envZeroParse rfl rfl rfl⟩

/-- Claim C2, counterexample: on a concrete fallback run the handler
returns the inverted silence intervals as they are, and padding-and-merging
them (with the pad and merge gap the primary path would use) would give a
different list, so the returned ranges are not the padded-and-merged form
of the inverted intervals. -/
theorem C2_counterexample :
    envFallback.primaryOk = false ∧
    (astatsHandler cfg10 envFallback).ranges = [⟨0, 2⟩, ⟨5, 10⟩] ∧
    rangeMerger (numOr cfg10.pad (6/5)) (numOr cfg10.merge_gap 1) [⟨0, 2⟩, ⟨5, 10⟩] ≠
      [⟨0, 2⟩, ⟨5, 10⟩] := by
  refine ⟨rfl, ?_, ?_⟩
  · simp only [astatsHandler, envFallback, cfg10]
    norm_num [invertSilence, invertGo, min_def, numOr, max_def]
  · have h : rangeMerger (numOr cfg10.pad (6/5)) (numOr cfg10.merge_gap 1)
        [(⟨0, 2⟩ : Range), ⟨5, 10⟩] = [⟨0, 12⟩] := by
      norm_num [rangeMerger, mergeRanges, mergeGoRev, sortRanges, padRange, cfg10, numOr,
        List.insertionSort, List.orderedInsert, max_def, min_def]
    rw [h]
    intro hcontra
    exact absurd hcontra (by decide)

/-- Claim C2, amended: on every fallback run the handler returns exactly
the intervals produced by inverting the silence events, with no padding and
no merging applied, and reports the fallback method. -/
theorem C2_fallback_returns_unmerged (cfg : AstatsConfig) (env : AstatsEnv)
    (ha : env.hasAudio = true) (hfail : env.primaryOk = false) :
    (astatsHandler cfg env).ranges =
      invertSilence (max 1 (numOr cfg.max_seconds 1200)) env.silenceEvents ∧
    (astatsHandler cfg env).method = Method.silencedetect_fallback := by
  simp [astatsHandler, ha, hfail]

/-- Witness for C2_fallback_returns_unmerged at a concrete input. -/
theorem C2_fallback_returns_unmerged_witness :
    envFallback.hasAudio = true ∧ envFallback.primaryOk = false ∧
    ((astatsHandler cfg10 envFallback).ranges =
      invertSilence (max 1 (numOr cfg10.max_seconds 1200)) envFallback.silenceEvents ∧
    (astatsHandler cfg10 envFallback).method = Method.silencedetect_fallback) :=
  ⟨rfl, rfl, C2_fallback_returns_unmerged cfg10 envFallback rfl rfl⟩

/-- Claim C10: a caller-supplied pad of 0 or merge_gap of 0 never takes
effect: the coercion Number(x) || default replaces 0 by the defaults 1.2
(= 6/5) and 1.0, so the handler behaves as if the defaults were supplied,
and the effective pad and merge gap are never 0. -/
theorem C10_zero_pad_merge_gap_use_defaults :
    (∀ cfg : AstatsConfig, ∀ env : AstatsEnv,
      astatsHandler ⟨cfg.max_seconds, cfg.percentile, cfg.base_db, 0, cfg.merge_gap⟩ env =
        astatsHandler ⟨cfg.max_seconds, cfg.percentile, cfg.base_db, 6/5, cfg.merge_gap⟩ env) ∧
    (∀ cfg : AstatsConfig, ∀ env : AstatsEnv,
      astatsHandler ⟨cfg.max_seconds, cfg.percentile, cfg.base_db, cfg.pad, 0⟩ env =
        astatsHandler ⟨cfg.max_seconds, cfg.percentile, cfg.base_db, cfg.pad, 1⟩ env) ∧
    (∀ x : ℚ, numOr x (6/5) ≠ 0 ∧ numOr x 1 ≠ 0) := by
  refine ⟨?_, ?_, ?_⟩
  · intro cfg env
    simp only [astatsHandler]
    norm_num [numOr]
  · intro cfg env
    simp only [astatsHandler]
    norm_num [numOr]
  · intro x
    constructor <;>
    · simp only [numOr]
      split_ifs with h
      · norm_num
      · exact h

/-- The relation mergedRel is transitive, so the consecutive-gap chain
extends to all pairs of output ranges. -/
theorem mergedRel_trans (g : ℚ) {a b c : Range}
    (hab : mergedRel g a b) (hbc : mergedRel g b c) : mergedRel g a c := by
  obtain ⟨h1, h2⟩ := hab
  obtain ⟨h3, h4⟩ := hbc
  exact ⟨h1.trans h3, by linarith⟩

/-- Sorting the padded ranges by start does sort them. -/
theorem sortRanges_sorted (rs : List Range) :
    List.Sorted (fun a b : Range => a.start ≤ b.start) (sortRanges rs) := by
  haveI : IsTotal Range (fun a b : Range => a.start ≤ b.start) := ⟨fun a b => le_total _ _⟩
  haveI : IsTrans Range (fun a b : Range => a.start ≤ b.start) := ⟨fun _ _ _ h1 h2 => h1.trans h2⟩
  exact List.sorted_insertionSort _ _

/-- Invariant of the merge loop, on the reversed accumulator: when the
accumulator is gap-chained (in reverse) and the pending ranges are sorted by
start and start no earlier than the accumulator's head, the loop's result is
gap-chained (in reverse). -/
theorem mergeGoRev_chain (g : ℚ) (rs : List Range) :
    ∀ acc : List Range,
      List.Chain' (flip (mergedRel g)) acc →
      (∀ x ∈ acc.head?, ∀ r ∈ rs, x.start ≤ r.start) →
      List.Sorted (fun a b : Range => a.start ≤ b.start) rs →
      List.Chain' (flip (mergedRel g)) (mergeGoRev g acc rs) := by
  induction rs with
  | nil =>
    intro acc hacc _ _
    simpa [mergeGoRev] using hacc
  | cons r rest ih =>
    intro acc hacc hhead hsort
    rw [List.sorted_cons] at hsort
    obtain ⟨hr, hrest⟩ := hsort
    match acc with
    | [] =>
      rw [show mergeGoRev g [] (r :: rest) = mergeGoRev g [r] rest from by
        simp [mergeGoRev]]
      refine ih [r] (List.chain'_singleton r) ?_ hrest
      intro x hx r2 hr2
      simp only [List.head?_cons, Option.mem_def, Option.some.injEq] at hx
      subst hx
      exact hr r2 hr2
    | last :: tl =>
      have hlastr : last.start ≤ r.start := by
        refine hhead last ?_ r (by simp)
        simp
      by_cases hgap : g < r.start - last.stop
      · rw [show mergeGoRev g (last :: tl) (r :: rest) =
            mergeGoRev g (r :: last :: tl) rest from by
          simp [mergeGoRev, hgap]]
        refine ih (r :: last :: tl) ?_ ?_ hrest
        · exact List.chain'_cons.mpr ⟨⟨hlastr, hgap⟩, hacc⟩
        · intro x hx r2 hr2
          simp only [List.head?_cons, Option.mem_def, Option.some.injEq] at hx
          subst hx
          exact hr r2 hr2
      · rw [show mergeGoRev g (last :: tl) (r :: rest) =
            mergeGoRev g (⟨last.start, max last.stop r.stop⟩ :: tl) rest from by
          simp [mergeGoRev, hgap]]
        refine ih (⟨last.start, max last.stop r.stop⟩ :: tl) ?_ ?_ hrest
        · match tl, hacc with
          | [], _ => exact List.chain'_singleton _
          | y :: tl', hacc =>
            rw [List.chain'_cons] at hacc ⊢
            exact ⟨hacc.1, hacc.2⟩
        · intro x hx r2 hr2
          simp only [List.head?_cons, Option.mem_def, Option.some.injEq] at hx
          subst hx
          exact le_trans hlastr (hr r2 hr2)

/-- The merge loop's output is gap-chained whenever its input is sorted by
start. -/
theorem mergeRanges_chain (g : ℚ) (rs : List Range)
    (hsort : List.Sorted (fun a b : Range => a.start ≤ b.start) rs) :
    List.Chain' (mergedRel g) (mergeRanges g rs) := by
  rw [mergeRanges, List.chain'_reverse]
  refine mergeGoRev_chain g rs [] List.chain'_nil ?_ hsort
  intro x hx
  simp at hx

/-- Claim C4: for every raw interval list with end no earlier than start
and every nonnegative pad and merge gap, the merger's output is sorted by
start, pairwise disjoint, and the gap between consecutive output intervals
strictly exceeds the merge gap. -/
theorem C4_merger_invariants (raw : List Range) (PAD MERGE : ℚ)
    (hraw : ∀ r ∈ raw, r.start ≤ r.stop) (hpad : 0 ≤ PAD) (hgap : 0 ≤ MERGE) :
    List.Sorted (fun a b : Range => a.start ≤ b.start) (rangeMerger PAD MERGE raw) ∧
    List.Pairwise (fun a b : Range => a.stop < b.start) (rangeMerger PAD MERGE raw) ∧
    List.Chain' (fun a b : Range => MERGE < b.start - a.stop) (rangeMerger PAD MERGE raw) := by
  have hchain : List.Chain' (mergedRel MERGE) (rangeMerger PAD MERGE raw) :=
    mergeRanges_chain MERGE _ (sortRanges_sorted _)
  haveI : IsTrans Range (mergedRel MERGE) := ⟨fun _ _ _ => mergedRel_trans MERGE⟩
  have hpw : List.Pairwise (mergedRel MERGE) (rangeMerger PAD MERGE raw) :=
    List.chain'_iff_pairwise.mp hchain
  refine ⟨hpw.imp fun h => h.1, ?_, hchain.imp fun a b h => h.2⟩
  refine hpw.imp fun h => ?_
  have := h.2
  linarith

/-- Witness for C4_merger_invariants at a concrete input. -/
theorem C4_merger_invariants_witness :
    (∀ r ∈ [(⟨0, 2⟩ : Range), ⟨5, 6⟩], r.start ≤ r.stop) ∧ (0 : ℚ) ≤ 1 ∧ (0 : ℚ) ≤ 1 ∧
    (List.Sorted (fun a b : Range => a.start ≤ b.start) (rangeMerger 1 1 [⟨0, 2⟩, ⟨5, 6⟩]) ∧
    List.Pairwise (fun a b : Range => a.stop < b.start) (rangeMerger 1 1 [⟨0, 2⟩, ⟨5, 6⟩]) ∧
    List.Chain' (fun a b : Range => 1 < b.start - a.stop) (rangeMerger 1 1 [⟨0, 2⟩, ⟨5, 6⟩])) :=
  ⟨by decide, by decide, by decide,
    C4_merger_invariants [⟨0, 2⟩, ⟨5, 6⟩] 1 1 (by decide) (by decide) (by decide)⟩

/-- Every range the merge loop outputs has a nonnegative start when the
accumulator's and the pending ranges' starts are nonnegative (the merge step
keeps the start of the last merged range). -/
theorem mergeGoRev_start_nonneg (g : ℚ) (rs : List Range) :
    ∀ acc : List Range,
      (∀ r ∈ acc, 0 ≤ r.start) → (∀ r ∈ rs, 0 ≤ r.start) →
      ∀ r ∈ mergeGoRev g acc rs, 0 ≤ r.start := by
  induction rs with
  | nil =>
    intro acc ha _
    simpa [mergeGoRev] using ha
  | cons r rest ih =>
    intro acc ha hr
    have hr0 : 0 ≤ r.start := hr r (by simp)
    have hrest : ∀ x ∈ rest, 0 ≤ x.start := fun x hx => hr x (by simp [hx])
    match acc with
    | [] =>
      rw [show mergeGoRev g [] (r :: rest) = mergeGoRev g [r] rest from by
        simp [mergeGoRev]]
      refine ih [r] ?_ hrest
      intro x hx
      simp only [List.mem_singleton] at hx
      subst hx
      exact hr0
    | last :: tl =>
      have hlast : 0 ≤ last.start := ha last (by simp)
      have htl : ∀ x ∈ tl, 0 ≤ x.start := fun x hx => ha x (by simp [hx])
      by_cases hgap : g < r.start - last.stop
      · rw [show mergeGoRev g (last :: tl) (r :: rest) =
            mergeGoRev g (r :: last :: tl) rest from by
          simp [mergeGoRev, hgap]]
        refine ih (r :: last :: tl) ?_ hrest
        intro x hx
        simp only [List.mem_cons] at hx
        rcases hx with rfl | rfl | hx
        · exact hr0
        · exact hlast
        · exact htl x hx
      · rw [show mergeGoRev g (last :: tl) (r :: rest) =
            mergeGoRev g (⟨last.start, max last.stop r.stop⟩ :: tl) rest from by
          simp [mergeGoRev, hgap]]
        refine ih (⟨last.start, max last.stop r.stop⟩ :: tl) ?_ hrest
        intro x hx
        simp only [List.mem_cons] at hx
        rcases hx with rfl | hx
        · exact hlast
        · exact htl x hx

/-- Mapping a function that fixes every member of a list is the identity. -/
theorem map_id_of_mem {α : Type} {l : List α} {f : α → α}
    (h : ∀ r ∈ l, f r = r) : l.map f = l := by
  induction l with
  | nil => rfl
  | cons a t ih =>
    simp only [List.map_cons, h a (by simp)]
    rw [ih fun r hr => h r (by simp [hr])]

/-- Running the merge loop over a list that is already gap-chained with the
accumulator's head pushes every element unchanged. -/
theorem mergeGoRev_of_chain (g : ℚ) (l : List Range) :
    ∀ (x : Range) (acc : List Range),
      List.Chain' (mergedRel g) (x :: l) →
      mergeGoRev g (x :: acc) l = l.reverse ++ x :: acc := by
  induction l with
  | nil =>
    intro x acc _
    simp [mergeGoRev]
  | cons r rest ih =>
    intro x acc hchain
    rw [List.chain'_cons] at hchain
    obtain ⟨hxr, hchain⟩ := hchain
    rw [show mergeGoRev g (x :: acc) (r :: rest) =
        mergeGoRev g (r :: x :: acc) rest from by
      simp [mergeGoRev, hxr.2]]
    rw [ih r (x :: acc) hchain]
    simp

/-- The merge pass is the identity on gap-chained lists. -/
theorem mergeRanges_of_chain (g : ℚ) (l : List Range)
    (h : List.Chain' (mergedRel g) l) : mergeRanges g l = l := by
  match l with
  | [] => rfl
  | x :: rest =>
    rw [mergeRanges]
    rw [show mergeGoRev g [] (x :: rest) = mergeGoRev g [x] rest from by
      simp [mergeGoRev]]
    rw [mergeGoRev_of_chain g rest x [] h]
    simp

/-- Claim C5, counterexample: RangeMerger applied to its own output is not
that output, because the second application pads again: the raw interval
(0,0) with pad 2 and merge gap 1 merges to [(0,2)], and re-running the
merger on [(0,2)] yields [(0,4)]. -/
theorem C5_counterexample :
    rangeMerger 2 1 (rangeMerger 2 1 [⟨0, 0⟩]) ≠ rangeMerger 2 1 [⟨0, 0⟩] := by
  have h1 : rangeMerger 2 1 [(⟨0, 0⟩ : Range)] = [⟨0, 2⟩] := by
    norm_num [rangeMerger, mergeRanges, mergeGoRev, sortRanges, padRange,
      List.insertionSort, List.orderedInsert, max_def]
  have h2 : rangeMerger 2 1 [(⟨0, 2⟩ : Range)] = [⟨0, 4⟩] := by
    norm_num [rangeMerger, mergeRanges, mergeGoRev, sortRanges, padRange,
      List.insertionSort, List.orderedInsert, max_def]
  rw [h1, h2]
  intro h
  exact absurd h (by decide)

/-- Claim C5, amended: the merge itself is a fixed point, but re-running
the whole RangeMerger re-applies the padding, so idempotence holds exactly
for the sort-and-merge step (RangeMerger with pad 0): for every raw list,
pad and merge gap, padding the merger's output by 0, sorting and merging
returns it unchanged. -/
theorem C5_merge_fixed_point (raw : List Range) (PAD MERGE : ℚ) :
    rangeMerger 0 MERGE (rangeMerger PAD MERGE raw) = rangeMerger PAD MERGE raw := by
  have hchain : List.Chain' (mergedRel MERGE) (rangeMerger PAD MERGE raw) :=
    mergeRanges_chain MERGE _ (sortRanges_sorted _)
  have hnn : ∀ r ∈ rangeMerger PAD MERGE raw, 0 ≤ r.start := by
    rw [rangeMerger, mergeRanges]
    intro r hr
    rw [List.mem_reverse] at hr
    refine mergeGoRev_start_nonneg MERGE _ [] (by simp) ?_ r hr
    intro x hx
    rw [sortRanges, List.mem_insertionSort] at hx
    obtain ⟨y, _, rfl⟩ := List.mem_map.mp hx
    simp [padRange]
  have hsorted : List.Sorted (fun a b : Range => a.start ≤ b.start)
      (rangeMerger PAD MERGE raw) := by
    haveI : IsTrans Range (mergedRel MERGE) := ⟨fun _ _ _ => mergedRel_trans MERGE⟩
    exact (List.chain'_iff_pairwise.mp hchain).imp fun h => h.1
  have hmap : (rangeMerger PAD MERGE raw).map (padRange 0) = rangeMerger PAD MERGE raw := by
    refine map_id_of_mem fun r hr => ?_
    have h0 := hnn r hr
    simp [padRange, max_eq_right h0]
  conv_lhs => rw [rangeMerger]
  rw [hmap]
  rw [show sortRanges (rangeMerger PAD MERGE raw) = rangeMerger PAD MERGE raw from
    hsorted.insertionSort_eq]
  exact mergeRanges_of_chain MERGE _ hchain

/-- The clamped percentile index is below the list length whenever the list
is nonempty. -/
theorem thIdx_toNat_lt (n : ℕ) (p : ℚ) (hn : 0 < n) : (thIdx n p).toNat < n := by
  have h1 : thIdx n p ≤ (n : ℤ) - 1 := min_le_left _ _
  omega

/-- Claim C6: the selected threshold is monotone in the percentile, the
samples and floor level held fixed. -/
theorem C6_threshold_monotone (pts : List Pt) (fl p1 p2 : ℚ)
    (hne : pts ≠ []) (h0 : 0 ≤ p1) (h12 : p1 ≤ p2) (h1 : p2 ≤ 1) :
    threshold pts p1 fl ≤ threshold pts p2 fl := by
  have hn : 0 < (sortedRms pts).length := by
    rw [sortedRms, (List.perm_insertionSort _ _).length_eq, List.length_map]
    exact List.length_pos.mpr hne
  have hsort : List.Sorted (fun a b : ℚ => a ≤ b) (sortedRms pts) :=
    List.sorted_insertionSort _ _
  have hmono : (thIdx (sortedRms pts).length p1).toNat ≤
      (thIdx (sortedRms pts).length p2).toNat := by
    refine Int.toNat_le_toNat (min_le_min le_rfl (max_le_max le_rfl ?_))
    exact Int.floor_le_floor (mul_le_mul_of_nonneg_left h12 (by positivity))
  have hb1 := thIdx_toNat_lt (sortedRms pts).length p1 hn
  have hb2 := thIdx_toNat_lt (sortedRms pts).length p2 hn
  have key : (sortedRms pts).getD (thIdx (sortedRms pts).length p1).toNat 0 ≤
      (sortedRms pts).getD (thIdx (sortedRms pts).length p2).toNat 0 := by
    rw [List.getD_eq_get? , List.getD_eq_get? , List.get?_eq_get hb1, List.get?_eq_get hb2]
    exact hsort.rel_get_of_le (Fin.mk_le_mk.mpr hmono)
  exact max_le_max key le_rfl

/-- Witness for C6_threshold_monotone at a concrete input. -/
theorem C6_threshold_monotone_witness :
    ([⟨0, -5⟩, ⟨1, -3⟩] : List Pt) ≠ [] ∧ (0 : ℚ) ≤ 0 ∧ (0 : ℚ) ≤ 1 ∧ (1 : ℚ) ≤ 1 ∧
    threshold [⟨0, -5⟩, ⟨1, -3⟩] 0 (-35) ≤ threshold [⟨0, -5⟩, ⟨1, -3⟩] 1 (-35) :=
  ⟨by decide, by decide, by decide, by decide,
    C6_threshold_monotone [⟨0, -5⟩, ⟨1, -3⟩] (-35) 0 1 (by decide) (by decide) (by decide)
      (by decide)⟩

/-- Claim C7: for every nonempty sample list the selected threshold equals
max(v, floorLevel) where v sits at index clamp(floor(percentile * N), 0,
N - 1) of the sample levels sorted ascending; stated for an arbitrary
ascending sort `s` of the levels (such a sort is unique). -/
theorem C7_threshold_formula (pts : List Pt) (p fl : ℚ) (hne : pts ≠ [])
    (s : List ℚ) (hperm : s.Perm (pts.map Pt.rms))
    (hsort : List.Sorted (fun a b : ℚ => a ≤ b) s) :
    threshold pts p fl =
      max (s.getD (min ((pts.length : ℤ) - 1) (max 0 ⌊p * (pts.length : ℚ)⌋)).toNat 0) fl := by
  have hs : s = sortedRms pts := by
    refine List.eq_of_perm_of_sorted
      (hperm.trans (List.perm_insertionSort (fun a b : ℚ => a ≤ b) _).symm) hsort ?_
    exact List.sorted_insertionSort _ _
  have hlen : (sortedRms pts).length = pts.length := by
    rw [sortedRms, (List.perm_insertionSort _ _).length_eq, List.length_map]
  rw [hs, threshold, thIdx, hlen, mul_comm (pts.length : ℚ) p]

/-- Witness for C7_threshold_formula at a concrete input. -/
theorem C7_threshold_formula_witness :
    ([⟨0, -5⟩] : List Pt) ≠ [] ∧
    threshold [⟨0, -5⟩] 0 (-35) =
      max (([(-5 : ℚ)]).getD
        (min ((([(⟨0, -5⟩ : Pt)] : List Pt).length : ℤ) - 1)
          (max 0 ⌊(0 : ℚ) * (([(⟨0, -5⟩ : Pt)] : List Pt).length : ℚ)⌋)).toNat 0) (-35) :=
  ⟨by decide,
    C7_threshold_formula [⟨0, -5⟩] 0 (-35) (by decide) [(-5 : ℚ)] (List.Perm.refl _)
      (List.sorted_singleton _)⟩

/-- Claim C8, counterexample: the scan loop breaks on a sample whose time
exceeds the MAX_T horizon (line 489), so a sequence whose last, active
sample lies past the horizon produces an empty raw list: with maxT 1 and
threshold -1, the single sample (t 2, rms 0) is active yet yields no
interval, so the stated universal property fails without a horizon bound. -/
theorem C8_counterexample :
    buildRaw 1 (-1) [⟨2, 0⟩] = [] ∧ ((-1 : ℚ) ≤ (0 : ℚ)) := by
  constructor
  · norm_num [buildRaw, buildRawGo]
  · norm_num

/-- The scan loop never drops a trailing open interval: whenever every
sample time is within the horizon and the last sample is active, the result
ends with an interval closed at the last sample's time, whatever the open
cursor and accumulator. -/
theorem buildRawGo_getLast (maxT TH : ℚ) (pts : List Pt) :
    ∀ (plast : Pt) (cur : Option Range) (acc : List Range),
      pts.getLast? = some plast →
      (∀ p ∈ pts, p.t ≤ maxT) →
      TH ≤ plast.rms →
      ∃ r : Range, (buildRawGo maxT TH pts cur acc).getLast? = some r ∧
        r.stop = plast.t := by
  induction pts with
  | nil =>
    intro plast cur acc h
    simp at h
  | cons p rest ih =>
    intro plast cur acc hlast hbound hact
    have hpt : ¬ maxT < p.t := not_lt.mpr (hbound p (by simp))
    match rest, hlast with
    | [], hlast =>
      have hp : p = plast := by simpa using hlast
      subst hp
      rw [show buildRawGo maxT TH [p] cur acc =
          buildRawGo maxT TH []
            (some (match cur with
              | none => (⟨p.t, p.t⟩ : Range)
              | some c => ⟨c.start, p.t⟩)) acc from by
        cases cur <;> simp [buildRawGo, hpt, hact]]
      cases cur with
      | none => exact ⟨⟨p.t, p.t⟩, by simp [buildRawGo], rfl⟩
      | some c => exact ⟨⟨c.start, p.t⟩, by simp [buildRawGo], rfl⟩
    | q :: rest', hlast =>
      have hlast' : (q :: rest').getLast? = some plast := by
        rw [← List.getLast?_cons_cons (a := p)]
        exact hlast
      have hbound' : ∀ x ∈ q :: rest', x.t ≤ maxT := fun x hx => hbound x (by simp [hx])
      by_cases hACT : TH ≤ p.rms
      · cases cur with
        | none =>
          rw [show buildRawGo maxT TH (p :: q :: rest') none acc =
              buildRawGo maxT TH (q :: rest') (some ⟨p.t, p.t⟩) acc from by
            simp [buildRawGo, hpt, hACT]]
          exact ih plast _ _ hlast' hbound' hact
        | some c =>
          rw [show buildRawGo maxT TH (p :: q :: rest') (some c) acc =
              buildRawGo maxT TH (q :: rest') (some ⟨c.start, p.t⟩) acc from by
            simp [buildRawGo, hpt, hACT]]
          exact ih plast _ _ hlast' hbound' hact
      · cases cur with
        | none =>
          rw [show buildRawGo maxT TH (p :: q :: rest') none acc =
              buildRawGo maxT TH (q :: rest') none acc from by
            simp [buildRawGo, hpt, hACT]]
          exact ih plast _ _ hlast' hbound' hact
        | some c =>
          rw [show buildRawGo maxT TH (p :: q :: rest') (some c) acc =
              buildRawGo maxT TH (q :: rest') none (acc ++ [c]) from by
            simp [buildRawGo, hpt, hACT]]
          exact ih plast _ _ hlast' hbound' hact

/-- Claim C8, amended: for every sample sequence ordered by time whose
times are all within the maxT horizon (as the parser guarantees for the
sequences it produces), if the last sample's level reaches the threshold
then the raw list is nonempty and its last interval ends at the last
sample's time. -/
theorem C8_trailing_interval (maxT TH : ℚ) (pts : List Pt) (plast : Pt)
    (hlast : pts.getLast? = some plast)
    (hord : List.Chain' (fun a b : Pt => a.t ≤ b.t) pts)
    (hbound : ∀ p ∈ pts, p.t ≤ maxT)
    (hact : TH ≤ plast.rms) :
    ∃ r : Range, (buildRaw maxT TH pts).getLast? = some r ∧ r.stop = plast.t :=
  buildRawGo_getLast maxT TH pts plast none [] hlast hbound hact

/-- Witness for C8_trailing_interval at a concrete input. -/
theorem C8_trailing_interval_witness :
    ([(⟨0, -5⟩ : Pt)].getLast? = some ⟨0, -5⟩) ∧
    List.Chain' (fun a b : Pt => a.t ≤ b.t) [⟨0, -5⟩] ∧
    (∀ p ∈ [(⟨0, -5⟩ : Pt)], p.t ≤ 10) ∧ ((-5 : ℚ) ≤ (-5 : ℚ)) ∧
    ∃ r : Range, (buildRaw 10 (-5) [⟨0, -5⟩]).getLast? = some r ∧
      r.stop = (⟨0, -5⟩ : Pt).t :=
  ⟨rfl, List.chain'_singleton _, by decide, by decide,
    C8_trailing_interval 10 (-5) [⟨0, -5⟩] ⟨0, -5⟩ rfl (List.chain'_singleton _)
      (by decide) (by decide)⟩
